import Mathlib

/-!
Verification of the Bi-CGSTAB solver of pykrylov.

Shallow embedding of `src/pykrylov/bicgstab/bicgstab.py` (`BiCGSTAB.solve`,
lines 39-145) and proofs about it.

Modelling choices:

* Vectors are `List α` over a scalar type `α`.  The algorithm is written
  once over an explicit record `Ops α` of scalar operations and then
  instantiated twice: at `ℚ` (exact arithmetic, the usual idealisation of
  Python floats) and at `FP` (rationals extended with `inf`/`-inf`/`nan`
  following IEEE-754 rules for the special values, used to reason about
  the unguarded breakdown divisions).
* The square root is external library code (`math.sqrt`); it is a field of
  `Ops`.  `qSqrt` below is an exact square root on perfect squares.
* numpy binary operations on 1-D arrays are `Except`-valued: unequal
  lengths raise `ValueError` except for numpy's length-1 broadcasting,
  which is asymmetric between out-of-place operations (either operand may
  have length 1: `vsubE`) and in-place `+=`/`-=` updates (only the
  right-hand operand may: `vaddI`, `vsubI`); `np.dot` on 1-D arrays never
  broadcasts.
* The `while` loop of lines 78-141 is embedded with explicit fuel;
  `solve` supplies `matvec_max + 1` units and `loop_no_fuelOut` proves the
  fuel can never run out, which is the termination argument.
* A counter record `Cnt` instruments the embedding: it counts operator
  invocations, `np.dot` calls, scaled-vector updates (daxpy/scal
  operations, i.e. the vector updates of lines 84, 85, 97, 106, 124, 129,
  131 that multiply a vector by a scalar), preconditioner applications,
  completed full loop bodies, whether the run left the loop between the
  two matrix-vector products of an iteration (lines 105-112), and whether
  the iteration vectors of lines 74-76 were created.  Counters never feed
  back into any computed value or branch.
-/

namespace BiCGSTAB

/-- Scalar operations the algorithm needs.  `pmax` is Python's binary
`max` (returns the second argument only when it is strictly larger) and
`sqrt` stands for `math.sqrt`. -/
structure Ops (α : Type) where
  zero : α
  one : α
  add : α → α → α
  sub : α → α → α
  mul : α → α → α
  div : α → α → α
  neg : α → α
  le : α → α → Bool
  lt : α → α → Bool
  sqrt : α → α

/-- Python's `max(a, b)`: scan keeps the current value unless the next one
is strictly greater. -/
def Ops.pmax {α : Type} (ops : Ops α) (a b : α) : α :=
  if ops.lt a b then b else a

/-- Bit-by-bit integer square root (structurally recursive so that it
evaluates inside the kernel): after the call from `natSqrt` it is exact
for every argument below `2 ^ 128`. -/
def isqrtAux : Nat → Nat → Nat → Nat
  | 0, r, _ => r
  | k + 1, r, n =>
    let r2 := r + 2 ^ k
    if r2 * r2 ≤ n then isqrtAux k r2 n else isqrtAux k r n

/-- Integer square root (floor) for arguments below `2 ^ 128`. -/
def natSqrt (n : Nat) : Nat := isqrtAux 64 0 n

/-- Exact square root on `ℚ`: the honest value on ratios of perfect
squares (every input appearing in a concrete run below), the identity
elsewhere; nonpositive arguments map to `0`. -/
def qSqrt (q : ℚ) : ℚ :=
  if q ≤ 0 then 0
  else
    let a := q.num.toNat
    let b := q.den
    if natSqrt a * natSqrt a = a ∧ natSqrt b * natSqrt b = b then
      (natSqrt a : ℚ) / (natSqrt b : ℚ)
    else q

/-- Scalar operations over `ℚ`, parametrised by the square-root routine. -/
def ratOps (sq : ℚ → ℚ) : Ops ℚ where
  zero := 0
  one := 1
  add := (· + ·)
  sub := (· - ·)
  mul := (· * ·)
  div := (· / ·)
  neg := (- ·)
  le := fun a b => decide (a ≤ b)
  lt := fun a b => decide (a < b)
  sqrt := sq

/-- The default `ℚ` instantiation. -/
def ratOpsQ : Ops ℚ := ratOps qSqrt

/-- IEEE-flavoured scalars: exact rationals extended with the three
special values `inf`, `-inf`, `nan` (rounding is idealised away; the
special-value rules follow IEEE-754). -/
inductive FP where
  | fin (q : ℚ)
  | inf
  | ninf
  | nan
deriving DecidableEq, Repr

/-- IEEE negation. -/
def fneg : FP → FP
  | .fin q => .fin (-q)
  | .inf => .ninf
  | .ninf => .inf
  | .nan => .nan

/-- IEEE addition: `nan` propagates, `inf + -inf = nan`. -/
def fadd : FP → FP → FP
  | .nan, _ => .nan
  | _, .nan => .nan
  | .inf, .ninf => .nan
  | .ninf, .inf => .nan
  | .inf, _ => .inf
  | _, .inf => .inf
  | .ninf, _ => .ninf
  | _, .ninf => .ninf
  | .fin a, .fin b => .fin (a + b)

/-- IEEE subtraction. -/
def fsub (a b : FP) : FP := fadd a (fneg b)

/-- IEEE multiplication: `nan` propagates, `inf * 0 = nan`. -/
def fmul : FP → FP → FP
  | .nan, _ => .nan
  | _, .nan => .nan
  | .inf, .inf => .inf
  | .inf, .ninf => .ninf
  | .ninf, .inf => .ninf
  | .ninf, .ninf => .inf
  | .inf, .fin b => if b = 0 then .nan else if 0 < b then .inf else .ninf
  | .fin a, .inf => if a = 0 then .nan else if 0 < a then .inf else .ninf
  | .ninf, .fin b => if b = 0 then .nan else if 0 < b then .ninf else .inf
  | .fin a, .ninf => if a = 0 then .nan else if 0 < a then .ninf else .inf
  | .fin a, .fin b => .fin (a * b)

/-- IEEE division: `x / 0` is `±inf` for `x ≠ 0` and `nan` for `0 / 0`;
`inf / inf = nan`; `nan` propagates.  (Signed zero is idealised to `+0`.) -/
def fdiv : FP → FP → FP
  | .nan, _ => .nan
  | _, .nan => .nan
  | .inf, .inf => .nan
  | .inf, .ninf => .nan
  | .ninf, .inf => .nan
  | .ninf, .ninf => .nan
  | .inf, .fin b => if 0 ≤ b then .inf else .ninf
  | .ninf, .fin b => if 0 ≤ b then .ninf else .inf
  | .fin _, .inf => .fin 0
  | .fin _, .ninf => .fin 0
  | .fin a, .fin b =>
    if b = 0 then (if a = 0 then .nan else if 0 < a then .inf else .ninf)
    else .fin (a / b)

/-- IEEE `<=`: any comparison with `nan` is false. -/
def fle : FP → FP → Bool
  | .nan, _ => false
  | _, .nan => false
  | .ninf, _ => true
  | _, .ninf => false
  | _, .inf => true
  | .inf, _ => false
  | .fin a, .fin b => decide (a ≤ b)

/-- IEEE `<`: any comparison with `nan` is false. -/
def flt : FP → FP → Bool
  | .nan, _ => false
  | _, .nan => false
  | .ninf, .ninf => false
  | .ninf, _ => true
  | _, .ninf => false
  | .inf, _ => false
  | _, .inf => true
  | .fin a, .fin b => decide (a < b)

/-- IEEE square root: `nan` on negative inputs, exact on perfect squares. -/
def fsqrt : FP → FP
  | .nan => .nan
  | .inf => .inf
  | .ninf => .nan
  | .fin q => if q < 0 then .nan else .fin (qSqrt q)

/-- Scalar operations over `FP`. -/
def fpOps : Ops FP where
  zero := .fin 0
  one := .fin 1
  add := fadd
  sub := fsub
  mul := fmul
  div := fdiv
  neg := fneg
  le := fle
  lt := flt
  sqrt := fsqrt

/-- Shape error raised by a numpy operation on arrays of unequal length,
or fuel exhaustion of the embedded loop (proved unreachable).  A shape
error records the matvec count and instrumentation counters at the point
of the raise. -/
inductive Err where
  | shape (nMatvec : Nat) (op : Nat)
  | fuelOut
deriving DecidableEq, Repr

/-- Instrumentation counters (see the file header); they never influence
computed values or control flow. -/
structure Cnt where
  op : Nat
  dot : Nat
  axpy : Nat
  precon : Nat
  fullIters : Nat
  halfExit : Bool
  allocated : Bool
deriving DecidableEq, Repr

/-- The all-zero counter record. -/
def Cnt.init : Cnt := ⟨0, 0, 0, 0, 0, false, false⟩

/-- numpy scalar-times-vector `c * v`. -/
def smul {α : Type} (ops : Ops α) (c : α) (v : List α) : List α :=
  v.map (fun e => ops.mul c e)

/-- numpy in-place `v *= c` (elementwise `v_i * c`). -/
def scal {α : Type} (ops : Ops α) (v : List α) (c : α) : List α :=
  v.map (fun e => ops.mul e c)

/-- Sum-of-products core of `np.dot` on two 1-D arrays of equal length. -/
def dotT {α : Type} (ops : Ops α) (a b : List α) : α :=
  (List.zipWith ops.mul a b).foldl ops.add ops.zero

/-- numpy `np.dot` on 1-D arrays: `ValueError` when the lengths differ. -/
def npDot {α : Type} (ops : Ops α) (a b : List α) : Except Unit α :=
  if a.length = b.length then .ok (dotT ops a b) else .error ()

/-- numpy out-of-place subtraction `a - b` of 1-D arrays (lines 56, 97,
124): equal lengths subtract elementwise, a length-1 operand broadcasts
against the other, and any other mismatch raises `ValueError`. -/
def vsubE {α : Type} (ops : Ops α) (a b : List α) : Except Unit (List α) :=
  if a.length = b.length then .ok (List.zipWith ops.sub a b)
  else
    match a, b with
    | a, [b0] => .ok (a.map (fun e => ops.sub e b0))
    | [a0], b => .ok (b.map (fun e => ops.sub a0 e))
    | _, _ => .error ()

/-- numpy in-place subtraction `a -= b` (line 85): equal lengths
subtract elementwise and a length-1 `b` broadcasts, but the result must
fit the target `a`, so every other mismatch raises `ValueError`. -/
def vsubI {α : Type} (ops : Ops α) (a b : List α) : Except Unit (List α) :=
  if a.length = b.length then .ok (List.zipWith ops.sub a b)
  else
    match b with
    | [b0] => .ok (a.map (fun e => ops.sub e b0))
    | _ => .error ()

/-- numpy in-place addition `a += b` (lines 86, 106, 130, 131): equal
lengths add elementwise and a length-1 `b` broadcasts, but the result
must fit the target `a`, so every other mismatch raises `ValueError`. -/
def vaddI {α : Type} (ops : Ops α) (a b : List α) : Except Unit (List α) :=
  if a.length = b.length then .ok (List.zipWith ops.add a b)
  else
    match b with
    | [b0] => .ok (a.map (fun e => ops.add e b0))
    | _ => .error ()

/-- Matrix-vector product of a dense matrix given by rows, used to build
concrete operators in the proofs below. -/
def matVecOf {α : Type} (ops : Ops α) (rows : List (List α)) (v : List α) : List α :=
  rows.map (fun row => dotT ops row v)

/-- The mutable locals of the `while` loop of lines 78-141: the vectors
`x`, `r0`, `r`, `p`, `v`, the scalars `rho`, `alpha`, `omega`, `rho_next`,
and the matvec counter.  `sv`/`tv` additionally record the `s` and `t` of
the latest completed full iteration (instrumentation, like `cnt`). -/
structure St (α : Type) where
  x : List α
  r0 : List α
  r : List α
  p : List α
  v : List α
  sv : List α
  tv : List α
  rho : α
  alpha : α
  omega : α
  rho_next : α
  nMatvec : Nat
  cnt : Cnt
deriving DecidableEq, Repr

/-- What `solve` publishes on normal termination (lines 143-145 plus
`self.residNorm0` from line 61; `threshold` of line 62 is also recorded
so that its value can be stated). -/
structure Rslt (α : Type) where
  x : List α
  nMatvec : Nat
  residNorm : α
  residNorm0 : α
  threshold : α
  cnt : Cnt
deriving DecidableEq, Repr

/-- Solver configuration.  Modelled from the spec: the `KrylovMethod`
base class (`pykrylov.generic`, not under `src/`) stores the absolute
tolerance `abstol`, the relative tolerance `reltol` and the matvec budget
`matvec_max` that `solve` reads; the operator and preconditioner
capabilities it also stores are passed as explicit arguments below. -/
structure Cfg (α : Type) where
  abstol : α
  reltol : α
  matvec_max : Nat
deriving DecidableEq, Repr

/-- Intermediate data between the two matrix-vector products of one loop
body: the state as updated through line 100 plus this iteration's `q`,
`s`, and the half-step residual norm of line 100. -/
structure Mid (α : Type) where
  st : St α
  q : List α
  s : List α
  rn : α
deriving DecidableEq, Repr

/-- Lines 80-112 of one loop body: `beta`, the in-place `p` update, the
preconditioned direction, the first matvec, the unguarded division
computing `alpha`, the half-step residual `s` and its norm, and the two
possible early exits (line 105: CGS convergence, line 110: budget). -/
def phase1 {α : Type} (ops : Ops α) (A : List α → List α) (M : Option (List α → List α))
    (maxMV : Nat) (threshold residNorm0 : α) (st : St α) :
    Except Err (Rslt α ⊕ Mid α) :=
  -- line 80: beta = rho_next/rho * alpha/omega
  let beta := ops.div (ops.mul (ops.div st.rho_next st.rho) st.alpha) st.omega
  -- line 81: rho = rho_next
  let rho := st.rho_next
  -- line 84: p *= beta
  let p1 := scal ops st.p beta
  let c1 := { st.cnt with axpy := st.cnt.axpy + 1 }
  -- line 85: p -= beta * omega * v
  match vsubI ops p1 (smul ops (ops.mul beta st.omega) st.v) with
  | .error _ => .error (.shape st.nMatvec c1.op)
  | .ok p2 =>
    let c2 := { c1 with axpy := c1.axpy + 1 }
    -- line 86: p += r
    match vaddI ops p2 st.r with
    | .error _ => .error (.shape st.nMatvec c2.op)
    | .ok p3 =>
      -- lines 89-92: preconditioned search direction
      let qc : List α × Cnt :=
        match M with
        | some Mf => (Mf p3, { c2 with precon := c2.precon + 1 })
        | none => (p3, c2)
      let q := qc.1
      let c3 := qc.2
      -- line 94: v = matvec(q); nMatvec += 1
      let vNew := A q
      let n1 := st.nMatvec + 1
      let c4 := { c3 with op := c3.op + 1 }
      -- line 96: alpha = rho / np.dot(r0, v) — no guard on the denominator
      match npDot ops st.r0 vNew with
      | .error _ => .error (.shape n1 c4.op)
      | .ok d1 =>
        let c5 := { c4 with dot := c4.dot + 1 }
        let alpha := ops.div rho d1
        -- line 97: s = r - alpha * v
        match vsubE ops st.r (smul ops alpha vNew) with
        | .error _ => .error (.shape n1 c5.op)
        | .ok s =>
          let c6 := { c5 with axpy := c5.axpy + 1 }
          -- line 100: residNorm = sqrt(np.dot(s, s))
          let rn := ops.sqrt (dotT ops s s)
          let c7 := { c6 with dot := c6.dot + 1 }
          -- lines 105-108: CGS termination
          if ops.le rn threshold = true then
            match vaddI ops st.x (smul ops alpha q) with
            | .error _ => .error (.shape n1 c7.op)
            | .ok x' =>
              .ok (.inl ⟨x', n1, rn, residNorm0, threshold,
                { c7 with axpy := c7.axpy + 1, halfExit := true }⟩)
          else
            -- lines 110-112: budget check between the two matvecs
            if maxMV ≤ n1 then
              .ok (.inl ⟨st.x, n1, rn, residNorm0, threshold, { c7 with halfExit := true }⟩)
            else
              .ok (.inr ⟨{ st with
                            p := p3, v := vNew, rho := rho, alpha := alpha,
                            nMatvec := n1, cnt := c7 }, q, s, rn⟩)

/-- Lines 114-141 of one loop body: the preconditioned `s`, the second
matvec, the unguarded division computing `omega`, the residual and
solution updates, and the final termination check of line 138. -/
def phase2 {α : Type} (ops : Ops α) (A : List α → List α) (M : Option (List α → List α))
    (maxMV : Nat) (threshold residNorm0 : α) (m : Mid α) :
    Except Err (Rslt α ⊕ St α) :=
  let st := m.st
  -- lines 114-117: preconditioned s
  let zc : List α × Cnt :=
    match M with
    | some Mf => (Mf m.s, { st.cnt with precon := st.cnt.precon + 1 })
    | none => (m.s, st.cnt)
  let z := zc.1
  let c1 := zc.2
  -- line 119: t = matvec(z); nMatvec += 1
  let t := A z
  let n2 := st.nMatvec + 1
  let c2 := { c1 with op := c1.op + 1 }
  -- line 120: omega = np.dot(t, s) / np.dot(t, t) — no guard on the denominator
  match npDot ops t m.s with
  | .error _ => .error (.shape n2 c2.op)
  | .ok dts =>
    let c3 := { c2 with dot := c2.dot + 2 }
    let omega := ops.div dts (dotT ops t t)
    -- line 121: rho_next = -omega * np.dot(r0, t)
    match npDot ops st.r0 t with
    | .error _ => .error (.shape n2 c3.op)
    | .ok drt =>
      let c4 := { c3 with dot := c3.dot + 1 }
      let rho_next := ops.mul (ops.neg omega) drt
      -- line 124: r = s - omega * t
      match vsubE ops m.s (smul ops omega t) with
      | .error _ => .error (.shape n2 c4.op)
      | .ok rNew =>
        let c5 := { c4 with axpy := c4.axpy + 1 }
        -- line 129: z *= omega (aliases s when precon is None; s is dead here)
        let z' := scal ops z omega
        let c6 := { c5 with axpy := c5.axpy + 1 }
        -- line 130: x += z
        match vaddI ops st.x z' with
        | .error _ => .error (.shape n2 c6.op)
        | .ok x1 =>
          -- line 131: x += alpha * q
          match vaddI ops x1 (smul ops st.alpha m.q) with
          | .error _ => .error (.shape n2 c6.op)
          | .ok x2 =>
            let c7 := { c6 with axpy := c6.axpy + 1 }
            -- line 133: residNorm = sqrt(np.dot(r, r))
            let rn2 := ops.sqrt (dotT ops rNew rNew)
            let c8 := { c7 with dot := c7.dot + 1, fullIters := c7.fullIters + 1 }
            -- lines 138-140: final termination check of the body
            if ops.le rn2 threshold = true ∨ maxMV ≤ n2 then
              .ok (.inl ⟨x2, n2, rn2, residNorm0, threshold, c8⟩)
            else
              .ok (.inr { st with
                            x := x2, r := rNew, sv := m.s, tv := t,
                            omega := omega, rho_next := rho_next,
                            nMatvec := n2, cnt := c8 })

/-- One full pass through the loop body, lines 80-141: either a final
result (one of the three exits) or the state for the next iteration. -/
def iterStep {α : Type} (ops : Ops α) (A : List α → List α) (M : Option (List α → List α))
    (maxMV : Nat) (threshold residNorm0 : α) (st : St α) :
    Except Err (Rslt α ⊕ St α) :=
  match phase1 ops A M maxMV threshold residNorm0 st with
  | .error e => .error e
  | .ok (.inl res) => .ok (.inl res)
  | .ok (.inr m) => phase2 ops A M maxMV threshold residNorm0 m

/-- The `while not finished` loop of lines 78-141, with explicit fuel;
`loop_no_fuelOut` below shows the fuel supplied by `solve` never runs
out. -/
def loop {α : Type} (ops : Ops α) (A : List α → List α) (M : Option (List α → List α))
    (maxMV : Nat) (threshold residNorm0 : α) : Nat → St α → Except Err (Rslt α)
  | 0, _ => .error .fuelOut
  | fuel + 1, st =>
    match iterStep ops A M maxMV threshold residNorm0 st with
    | .error e => .error e
    | .ok (.inl res) => .ok res
    | .ok (.inr st') => loop ops A M maxMV threshold residNorm0 fuel st'

/-- Lines 59-141 of `solve`, starting from the already-formed `x`, `r0`
and matvec count: scalar initialisation, residual norm and threshold
(lines 59-62; `np.dot(r0, r0)` acts on one array so it cannot raise), the
immediate-termination check of line 64, allocation of the iteration
vectors (lines 74-76) and the loop. -/
def solveFrom {α : Type} (ops : Ops α) (A : List α → List α) (M : Option (List α → List α))
    (cfg : Cfg α) (rhs x r0 : List α) (nM : Nat) (c0 : Cnt) : Except Err (Rslt α) :=
  let n := rhs.length
  -- line 60: rho_next = np.dot(r0, r0)
  let rho_next := dotT ops r0 r0
  let c1 := { c0 with dot := c0.dot + 1 }
  -- line 61: residNorm = self.residNorm0 = sqrt(rho_next)
  let residNorm0 := ops.sqrt rho_next
  -- line 62: threshold = max(self.abstol, self.reltol * self.residNorm0)
  let threshold := ops.pmax cfg.abstol (ops.mul cfg.reltol residNorm0)
  -- line 64: finished = (residNorm <= threshold or nMatvec >= self.matvec_max)
  if ops.le residNorm0 threshold = true ∨ cfg.matvec_max ≤ nM then
    .ok ⟨x, nM, residNorm0, residNorm0, threshold, c1⟩
  else
    -- lines 74-76: r = r0.copy(); p = np.zeros(n); v = np.zeros(n)
    let c2 := { c1 with allocated := true }
    loop ops A M cfg.matvec_max threshold residNorm0 (cfg.matvec_max + 1)
      ⟨x, r0, r0, List.replicate n ops.zero, List.replicate n ops.zero, [], [],
        ops.one, ops.one, ops.one, rho_next, nM, c2⟩

/-- The method `BiCGSTAB.solve` (lines 39-145).  `guess = none` models the `guess`
keyword being absent, `guess = some g` models `solve(rhs, guess=g)`.
Lines 46-57: `x` is the guess or the zero vector; with a guess the
initial residual costs one operator invocation, and `rhs - matvec(x)`
raises (before `nMatvec += 1` runs, after the operator was invoked once)
when the lengths differ. -/
def solve {α : Type} (ops : Ops α) (A : List α → List α) (M : Option (List α → List α))
    (cfg : Cfg α) (rhs : List α) (guess : Option (List α)) : Except Err (Rslt α) :=
  let n := rhs.length
  match guess with
  | none => solveFrom ops A M cfg rhs (List.replicate n ops.zero) rhs 0 Cnt.init
  | some g =>
    match vsubE ops rhs (A g) with
    | .error _ => .error (.shape 0 1)
    | .ok r0 => solveFrom ops A M cfg rhs g r0 1 { Cnt.init with op := 1 }

/-- Decidable equality of `Except` values, for evaluating concrete runs
inside proofs. -/
instance {ε α : Type} [DecidableEq ε] [DecidableEq α] : DecidableEq (Except ε α) := fun x y =>
  match x, y with
  | .error a, .error b => if h : a = b then .isTrue (by rw [h]) else .isFalse (by simp [h])
  | .ok a, .ok b => if h : a = b then .isTrue (by rw [h]) else .isFalse (by simp [h])
  | .error _, .ok _ => .isFalse (by simp)
  | .ok _, .error _ => .isFalse (by simp)

/-- Number of matvecs charged before the loop: one when a guess was
supplied (line 57), zero otherwise. -/
def initCount {α : Type} (guess : Option (List α)) : Nat :=
  match guess with
  | some _ => 1
  | none => 0

/-- Shift a loop state by one already-charged matvec: the situation of a
run that entered the loop after the extra initial-residual matvec of line
56 (same vectors and scalars, matvec count and operator counter one
higher). -/
def shiftSt {α : Type} (st : St α) : St α :=
  { st with nMatvec := st.nMatvec + 1, cnt := { st.cnt with op := st.cnt.op + 1 } }

/-- The shift `shiftSt` lifted to the mid-iteration record. -/
def shiftMid {α : Type} (m : Mid α) : Mid α :=
  { m with st := shiftSt m.st }

/-- The shift `shiftSt` lifted to a published result. -/
def shiftRes {α : Type} (r : Rslt α) : Rslt α :=
  { r with nMatvec := r.nMatvec + 1, cnt := { r.cnt with op := r.cnt.op + 1 } }

/-- Reference-semantics state for the aliasing analysis of `solve`: the
numpy arrays bound to the Python variable `x` live in a `store` of
arrays and `xa` is the address `x` is bound to; `writes` logs the
address of every in-place solution update (lines 106, 130, 131).  The
other loop vectors are kept as values — their object identity plays no
role in the claim under study.  Scalars, recurrences, counts and branch
conditions are the same as in `St`/`iterStep`. -/
structure StR (α : Type) where
  store : List (List α)
  xa : Nat
  writes : List Nat
  r0 : List α
  r : List α
  p : List α
  v : List α
  rho : α
  alpha : α
  omega : α
  rho_next : α
  nMatvec : Nat
deriving DecidableEq, Repr

/-- What the reference-semantics rendering publishes: line 144 binds
`self.bestSolution = x`, i.e. the address `x` holds — not a copy. -/
structure RsltR (α : Type) where
  bestAddr : Nat
  store : List (List α)
  writes : List Nat
  nMatvec : Nat
  residNorm : α
deriving DecidableEq, Repr

/-- Loop body of lines 80-141 in the reference-semantics rendering: the
same computation as `iterStep`, with the solution updates of lines 106,
130 and 131 performed as in-place writes through the address `xa`. -/
def iterStepR {α : Type} (ops : Ops α) (A : List α → List α) (M : Option (List α → List α))
    (maxMV : Nat) (threshold : α) (st : StR α) : Except Unit (RsltR α ⊕ StR α) :=
  let beta := ops.div (ops.mul (ops.div st.rho_next st.rho) st.alpha) st.omega
  let p1 := scal ops st.p beta
  match vsubI ops p1 (smul ops (ops.mul beta st.omega) st.v) with
  | .error _ => .error ()
  | .ok p2 =>
    match vaddI ops p2 st.r with
    | .error _ => .error ()
    | .ok p3 =>
      let q := match M with
        | some Mf => Mf p3
        | none => p3
      let vN := A q
      let n1 := st.nMatvec + 1
      match npDot ops st.r0 vN with
      | .error _ => .error ()
      | .ok d1 =>
        let alpha := ops.div st.rho_next d1
        match vsubE ops st.r (smul ops alpha vN) with
        | .error _ => .error ()
        | .ok sv =>
          let rn := ops.sqrt (dotT ops sv sv)
          if ops.le rn threshold = true then
            -- line 106: x += alpha * q, in place through the address
            match vaddI ops (st.store.getD st.xa []) (smul ops alpha q) with
            | .error _ => .error ()
            | .ok x2 =>
              .ok (.inl ⟨st.xa, st.store.set st.xa x2, st.writes ++ [st.xa], n1, rn⟩)
          else if maxMV ≤ n1 then
            .ok (.inl ⟨st.xa, st.store, st.writes, n1, rn⟩)
          else
            let z := match M with
              | some Mf => Mf sv
              | none => sv
            let t := A z
            let n2 := n1 + 1
            match npDot ops t sv with
            | .error _ => .error ()
            | .ok dts =>
              let omega := ops.div dts (dotT ops t t)
              match npDot ops st.r0 t with
              | .error _ => .error ()
              | .ok drt =>
                let rho_next := ops.mul (ops.neg omega) drt
                match vsubE ops sv (smul ops omega t) with
                | .error _ => .error ()
                | .ok rN =>
                  let z2 := scal ops z omega
                  -- line 130: x += z, in place
                  match vaddI ops (st.store.getD st.xa []) z2 with
                  | .error _ => .error ()
                  | .ok x1 =>
                    -- line 131: x += alpha * q, in place
                    match vaddI ops x1 (smul ops alpha q) with
                    | .error _ => .error ()
                    | .ok x2 =>
                      let store2 := (st.store.set st.xa x1).set st.xa x2
                      let w2 := (st.writes ++ [st.xa]) ++ [st.xa]
                      let rn2 := ops.sqrt (dotT ops rN rN)
                      if ops.le rn2 threshold = true ∨ maxMV ≤ n2 then
                        .ok (.inl ⟨st.xa, store2, w2, n2, rn2⟩)
                      else
                        .ok (.inr ⟨store2, st.xa, w2, st.r0, rN, p3, vN,
                          st.rho_next, alpha, omega, rho_next, n2⟩)

/-- The `while` loop in the reference-semantics rendering. -/
def loopR {α : Type} (ops : Ops α) (A : List α → List α) (M : Option (List α → List α))
    (maxMV : Nat) (threshold : α) : Nat → StR α → Except Unit (RsltR α)
  | 0, _ => .error ()
  | fuel + 1, st =>
    match iterStepR ops A M maxMV threshold st with
    | .error e => .error e
    | .ok (.inl res) => .ok res
    | .ok (.inr st2) => loopR ops A M maxMV threshold fuel st2

/-- Lines 59-141 in the reference-semantics rendering, from the bound
`x` address and formed `r0`. -/
def solveFromR {α : Type} (ops : Ops α) (A : List α → List α) (M : Option (List α → List α))
    (cfg : Cfg α) (rhs : List α) (store : List (List α)) (xa : Nat) (r0 : List α)
    (nM : Nat) : Except Unit (RsltR α) :=
  let n := rhs.length
  let rho_next := dotT ops r0 r0
  let residNorm0 := ops.sqrt rho_next
  let threshold := ops.pmax cfg.abstol (ops.mul cfg.reltol residNorm0)
  if ops.le residNorm0 threshold = true ∨ cfg.matvec_max ≤ nM then
    .ok ⟨xa, store, [], nM, residNorm0⟩
  else
    loopR ops A M cfg.matvec_max threshold (cfg.matvec_max + 1)
      ⟨store, xa, [], r0, r0, List.replicate n ops.zero, List.replicate n ops.zero,
        ops.one, ops.one, ops.one, rho_next, nM⟩

/-- The method `solve` in the reference-semantics rendering.  With a guess, line 51
binds `x` to the caller's array — modelled as the store's only cell,
address 0, holding the guess; no copy is made.  Without a guess,
`np.zeros(n)` allocates a fresh array at address 0. -/
def solveR {α : Type} (ops : Ops α) (A : List α → List α) (M : Option (List α → List α))
    (cfg : Cfg α) (rhs : List α) (guess : Option (List α)) : Except Unit (RsltR α) :=
  let n := rhs.length
  match guess with
  | none => solveFromR ops A M cfg rhs [List.replicate n ops.zero] 0 rhs 0
  | some g =>
    match vsubE ops rhs (A g) with
    | .error _ => .error ()
    | .ok r0 => solveFromR ops A M cfg rhs [g] 0 r0 1

theorem npDot_ok_iff {α : Type} (ops : Ops α) (a b : List α) (d : α) :
    npDot ops a b = .ok d ↔ a.length = b.length ∧ d = dotT ops a b := by
  unfold npDot
  split <;> simp_all
  exact eq_comm

theorem phase1_inr_spec {α : Type} (ops : Ops α) (A : List α → List α)
    (M : Option (List α → List α)) (maxMV : Nat) (thr rn0 : α) (st : St α) (m : Mid α)
    (h : phase1 ops A M maxMV thr rn0 st = .ok (.inr m)) :
    m.st.nMatvec = st.nMatvec + 1 ∧ st.nMatvec + 1 < maxMV ∧
    m.st.cnt.op = st.cnt.op + 1 ∧ m.st.cnt.dot = st.cnt.dot + 2 ∧
    m.st.cnt.axpy = st.cnt.axpy + 3 ∧
    m.st.cnt.precon = st.cnt.precon + (if M.isSome then 1 else 0) ∧
    m.st.cnt.fullIters = st.cnt.fullIters ∧
    m.st.cnt.halfExit = st.cnt.halfExit ∧
    m.st.cnt.allocated = st.cnt.allocated ∧
    m.st.r0 = st.r0 ∧ m.st.x = st.x ∧
    m.st.alpha = ops.div m.st.rho (dotT ops m.st.r0 m.st.v) := by
  cases M <;>
    (simp only [phase1] at h
     repeat' (split at h <;> first
       | exact Except.noConfusion h
       | (injection h with hh ; exact Sum.noConfusion hh)
       | skip)
     injection h with h
     injection h with h
     subst h
     simp_all [npDot_ok_iff]
     try omega)

theorem phase1_inl_spec {α : Type} (ops : Ops α) (A : List α → List α)
    (M : Option (List α → List α)) (maxMV : Nat) (thr rn0 : α) (st : St α) (res : Rslt α)
    (h : phase1 ops A M maxMV thr rn0 st = .ok (.inl res)) :
    res.nMatvec = st.nMatvec + 1 ∧
    res.threshold = thr ∧ res.residNorm0 = rn0 ∧
    res.cnt.op = st.cnt.op + 1 ∧
    res.cnt.fullIters = st.cnt.fullIters ∧
    res.cnt.halfExit = true ∧
    res.cnt.allocated = st.cnt.allocated ∧
    (ops.le res.residNorm thr = true ∨ maxMV ≤ st.nMatvec + 1) := by
  cases M <;>
    (simp only [phase1] at h
     repeat' (split at h <;> first
       | exact Except.noConfusion h
       | (injection h with hh ; exact Sum.noConfusion hh)
       | skip)
     all_goals
       (injection h with h
        injection h with h
        subst h
        simp_all [npDot_ok_iff]
        try omega))

theorem phase2_inl_spec {α : Type} (ops : Ops α) (A : List α → List α)
    (M : Option (List α → List α)) (maxMV : Nat) (thr rn0 : α) (m : Mid α) (res : Rslt α)
    (h : phase2 ops A M maxMV thr rn0 m = .ok (.inl res)) :
    res.nMatvec = m.st.nMatvec + 1 ∧
    res.threshold = thr ∧ res.residNorm0 = rn0 ∧
    res.cnt.op = m.st.cnt.op + 1 ∧
    res.cnt.fullIters = m.st.cnt.fullIters + 1 ∧
    res.cnt.halfExit = m.st.cnt.halfExit ∧
    res.cnt.allocated = m.st.cnt.allocated ∧
    (ops.le res.residNorm thr = true ∨ maxMV ≤ m.st.nMatvec + 1) := by
  cases M <;>
    (simp only [phase2] at h
     repeat' (split at h <;> first
       | exact Except.noConfusion h
       | (injection h with hh ; exact Sum.noConfusion hh)
       | skip)
     all_goals
       (injection h with h
        injection h with h
        subst h
        simp_all [npDot_ok_iff]
        try omega))

theorem phase2_inr_spec {α : Type} (ops : Ops α) (A : List α → List α)
    (M : Option (List α → List α)) (maxMV : Nat) (thr rn0 : α) (m : Mid α) (st2 : St α)
    (h : phase2 ops A M maxMV thr rn0 m = .ok (.inr st2)) :
    st2.nMatvec = m.st.nMatvec + 1 ∧ m.st.nMatvec + 1 < maxMV ∧
    st2.cnt.op = m.st.cnt.op + 1 ∧ st2.cnt.dot = m.st.cnt.dot + 4 ∧
    st2.cnt.axpy = m.st.cnt.axpy + 3 ∧
    st2.cnt.precon = m.st.cnt.precon + (if M.isSome then 1 else 0) ∧
    st2.cnt.fullIters = m.st.cnt.fullIters + 1 ∧
    st2.cnt.halfExit = m.st.cnt.halfExit ∧
    st2.cnt.allocated = m.st.cnt.allocated ∧
    st2.r0 = m.st.r0 ∧ st2.rho = m.st.rho ∧ st2.alpha = m.st.alpha ∧
    st2.v = m.st.v ∧ st2.sv = m.s ∧
    st2.omega = ops.div (dotT ops st2.tv st2.sv) (dotT ops st2.tv st2.tv) := by
  cases M <;>
    (simp only [phase2] at h
     repeat' (split at h <;> first
       | exact Except.noConfusion h
       | (injection h with hh ; exact Sum.noConfusion hh)
       | skip)
     all_goals
       (injection h with h
        injection h with h
        subst h
        simp_all [npDot_ok_iff]
        try omega))

theorem iterStep_inr_spec {α : Type} (ops : Ops α) (A : List α → List α)
    (M : Option (List α → List α)) (maxMV : Nat) (thr rn0 : α) (st st2 : St α)
    (h : iterStep ops A M maxMV thr rn0 st = .ok (.inr st2)) :
    st2.nMatvec = st.nMatvec + 2 ∧ st.nMatvec + 2 < maxMV ∧
    st2.cnt.op = st.cnt.op + 2 ∧ st2.cnt.dot = st.cnt.dot + 6 ∧
    st2.cnt.axpy = st.cnt.axpy + 6 ∧
    st2.cnt.precon = st.cnt.precon + 2 * (if M.isSome then 1 else 0) ∧
    st2.cnt.fullIters = st.cnt.fullIters + 1 ∧
    st2.cnt.halfExit = st.cnt.halfExit ∧
    st2.cnt.allocated = st.cnt.allocated ∧
    st2.r0 = st.r0 ∧
    st2.alpha = ops.div st2.rho (dotT ops st2.r0 st2.v) ∧
    st2.omega = ops.div (dotT ops st2.tv st2.sv) (dotT ops st2.tv st2.tv) := by
  unfold iterStep at h
  cases hp : phase1 ops A M maxMV thr rn0 st with
  | error e => rw [hp] at h ; exact Except.noConfusion h
  | ok v1 =>
    rw [hp] at h
    cases v1 with
    | inl r1 =>
      injection h with h
      exact Sum.noConfusion h
    | inr m =>
      have h1 := phase1_inr_spec ops A M maxMV thr rn0 st m hp
      have h2 := phase2_inr_spec ops A M maxMV thr rn0 m st2 h
      obtain ⟨e1, e2, e3, e4, e5, e6, e7, e8, e9, e10, e11, e12⟩ := h1
      obtain ⟨f1, f2, f3, f4, f5, f6, f7, f8, f9, f10, f11, f12, f13, f14, f15⟩ := h2
      refine ⟨by omega, by omega, by omega, by omega, by omega, ?_, by omega,
        by rw [f8, e8], by rw [f9, e9], by rw [f10, e10], ?_, f15⟩
      · cases M <;> simp_all
      · rw [f12, f10, e10, f11, f13]
        rw [e10] at e12
        exact e12

theorem iterStep_inl_spec {α : Type} (ops : Ops α) (A : List α → List α)
    (M : Option (List α → List α)) (maxMV : Nat) (thr rn0 : α) (st : St α) (res : Rslt α)
    (h : iterStep ops A M maxMV thr rn0 st = .ok (.inl res)) :
    res.threshold = thr ∧ res.residNorm0 = rn0 ∧
    res.cnt.allocated = st.cnt.allocated ∧
    ((res.nMatvec = st.nMatvec + 1 ∧ res.cnt.op = st.cnt.op + 1 ∧
      res.cnt.fullIters = st.cnt.fullIters ∧ res.cnt.halfExit = true ∧
      (ops.le res.residNorm thr = true ∨ maxMV ≤ st.nMatvec + 1)) ∨
     (res.nMatvec = st.nMatvec + 2 ∧ res.cnt.op = st.cnt.op + 2 ∧
      res.cnt.fullIters = st.cnt.fullIters + 1 ∧ res.cnt.halfExit = st.cnt.halfExit ∧
      st.nMatvec + 1 < maxMV ∧
      (ops.le res.residNorm thr = true ∨ maxMV ≤ st.nMatvec + 2))) := by
  unfold iterStep at h
  cases hp : phase1 ops A M maxMV thr rn0 st with
  | error e => rw [hp] at h ; exact Except.noConfusion h
  | ok v1 =>
    rw [hp] at h
    cases v1 with
    | inl r1 =>
      injection h with h
      injection h with h
      subst h
      have h1 := phase1_inl_spec ops A M maxMV thr rn0 st r1 hp
      exact ⟨h1.2.1, h1.2.2.1, h1.2.2.2.2.2.2.1,
        Or.inl ⟨h1.1, h1.2.2.2.1, h1.2.2.2.2.1, h1.2.2.2.2.2.1, h1.2.2.2.2.2.2.2⟩⟩
    | inr m =>
      have h1 := phase1_inr_spec ops A M maxMV thr rn0 st m hp
      have h2 := phase2_inl_spec ops A M maxMV thr rn0 m res h
      obtain ⟨e1, e2, e3, e4, e5, e6, e7, e8, e9, e10, e11, e12⟩ := h1
      obtain ⟨f1, f2, f3, f4, f5, f6, f7, f8⟩ := h2
      exact ⟨f2, f3, by rw [f7, e9], Or.inr ⟨by omega, by omega, by omega,
        by rw [f6, e8], by omega, by rw [e1] at f8 ; exact f8⟩⟩

theorem iterStep_no_fuelOut {α : Type} (ops : Ops α) (A : List α → List α)
    (M : Option (List α → List α)) (maxMV : Nat) (thr rn0 : α) (st : St α) (e : Err)
    (h : iterStep ops A M maxMV thr rn0 st = .error e) :
    ∃ n c, e = .shape n c := by
  unfold iterStep at h
  cases hp : phase1 ops A M maxMV thr rn0 st with
  | error e1 =>
    rw [hp] at h
    injection h with h
    subst h
    cases M <;>
      (simp only [phase1] at hp
       repeat' (split at hp <;> first
         | (injection hp with hh ; exact ⟨_, _, hh.symm⟩)
         | exact Except.noConfusion hp
         | skip))
  | ok v1 =>
    rw [hp] at h
    cases v1 with
    | inl r1 => exact Except.noConfusion h
    | inr m =>
      cases M <;>
        (simp only [phase2] at h
         repeat' (split at h <;> first
           | (injection h with hh ; exact ⟨_, _, hh.symm⟩)
           | exact Except.noConfusion h
           | skip))

theorem loop_no_fuelOut {α : Type} (ops : Ops α) (A : List α → List α)
    (M : Option (List α → List α)) (maxMV : Nat) (thr rn0 : α) :
    ∀ f (st : St α), maxMV - st.nMatvec ≤ 2 * f + 1 →
      loop ops A M maxMV thr rn0 (f + 1) st ≠ .error .fuelOut := by
  intro f
  induction f with
  | zero =>
    intro st hb h
    simp only [loop] at h
    cases hi : iterStep ops A M maxMV thr rn0 st with
    | error e =>
      rw [hi] at h
      obtain ⟨n, c, hnc⟩ := iterStep_no_fuelOut ops A M maxMV thr rn0 st e hi
      injection h with h
      rw [hnc] at h
      exact Err.noConfusion h
    | ok v1 =>
      rw [hi] at h
      cases v1 with
      | inl r1 => exact Except.noConfusion h
      | inr st2 =>
        obtain ⟨h1, h2, _⟩ := iterStep_inr_spec ops A M maxMV thr rn0 st st2 hi
        omega
  | succ f ih =>
    intro st hb h
    simp only [loop] at h
    cases hi : iterStep ops A M maxMV thr rn0 st with
    | error e =>
      rw [hi] at h
      obtain ⟨n, c, hnc⟩ := iterStep_no_fuelOut ops A M maxMV thr rn0 st e hi
      injection h with h
      rw [hnc] at h
      exact Err.noConfusion h
    | ok v1 =>
      rw [hi] at h
      cases v1 with
      | inl r1 => exact Except.noConfusion h
      | inr st2 =>
        obtain ⟨h1, h2, _⟩ := iterStep_inr_spec ops A M maxMV thr rn0 st st2 hi
        exact ih st2 (by omega) h

/-- Conjunctive invariant carried through the loop: the published
threshold and initial residual norm are the fixed parameters; the matvec
count equals the operator-invocation count; the count decomposes into the
pre-loop count plus two per full body plus one on a half exit; and the
loop only returns once the residual test passes or the count has reached
the budget exactly. -/
theorem loop_run {α : Type} (ops : Ops α) (A : List α → List α)
    (M : Option (List α → List α)) (maxMV : Nat) (thr rn0 : α) (init : Nat) :
    ∀ fuel (st : St α) (res : Rslt α),
      loop ops A M maxMV thr rn0 fuel st = .ok res →
      st.nMatvec < maxMV →
      st.cnt.op = st.nMatvec →
      st.cnt.halfExit = false →
      st.nMatvec = init + 2 * st.cnt.fullIters →
      res.threshold = thr ∧ res.residNorm0 = rn0 ∧
      res.cnt.op = res.nMatvec ∧
      res.nMatvec = init + 2 * res.cnt.fullIters + (if res.cnt.halfExit then 1 else 0) ∧
      (ops.le res.residNorm thr = true ∨ res.nMatvec = maxMV) ∧
      res.cnt.allocated = st.cnt.allocated := by
  intro fuel
  induction fuel with
  | zero =>
    intro st res h
    exact absurd h (by simp [loop])
  | succ f ih =>
    intro st res h hlt hop hhe hfi
    simp only [loop] at h
    cases hi : iterStep ops A M maxMV thr rn0 st with
    | error e => rw [hi] at h ; exact Except.noConfusion h
    | ok v1 =>
      rw [hi] at h
      cases v1 with
      | inl r1 =>
        injection h with h
        subst h
        obtain ⟨g1, g2, g3, g4⟩ := iterStep_inl_spec ops A M maxMV thr rn0 st _ hi
        rcases g4 with ⟨k1, k2, k3, k4, k5⟩ | ⟨k1, k2, k3, k4, k5, k6⟩
        · refine ⟨g1, g2, by omega, by rw [k4] ; simp ; omega, ?_, g3⟩
          rcases k5 with k5 | k5
          · exact Or.inl k5
          · exact Or.inr (by omega)
        · refine ⟨g1, g2, by omega, by rw [k4, hhe] ; simp ; omega, ?_, g3⟩
          rcases k6 with k6 | k6
          · exact Or.inl k6
          · exact Or.inr (by omega)
      | inr st2 =>
        obtain ⟨e1, e2, e3, e4, e5, e6, e7, e8, e9, _⟩ :=
          iterStep_inr_spec ops A M maxMV thr rn0 st st2 hi
        have := ih st2 res h (by omega) (by omega) (by rw [e8, hhe]) (by omega)
        exact ⟨this.1, this.2.1, this.2.2.1, this.2.2.2.1, this.2.2.2.2.1,
          by rw [this.2.2.2.2.2, e9]⟩

/-- `solve` never reports fuel exhaustion: the embedded loop always
terminates within the fuel provided. -/
theorem solve_no_fuelOut {α : Type} (ops : Ops α) (A : List α → List α)
    (M : Option (List α → List α)) (cfg : Cfg α) (rhs : List α) (guess : Option (List α)) :
    solve ops A M cfg rhs guess ≠ .error .fuelOut := by
  have key : ∀ (x r0 : List α) (nM : Nat) (c0 : Cnt),
      solveFrom ops A M cfg rhs x r0 nM c0 ≠ .error .fuelOut := by
    intro x r0 nM c0 h
    simp only [solveFrom] at h
    split at h
    · exact absurd h (by simp)
    · exact loop_no_fuelOut ops A M cfg.matvec_max _ _ cfg.matvec_max _ (by omega) h
  intro h
  cases guess with
  | none =>
    simp only [solve] at h
    exact key _ _ _ _ h
  | some g =>
    simp only [solve] at h
    cases hs : vsubE ops rhs (A g) with
    | error e => simp [hs] at h
    | ok r0 => simp only [hs] at h ; exact key _ _ _ _ h

/-- What every successful `solve` run satisfies: the published threshold
is `max(abstol, reltol * residNorm0)`; the matvec count equals the number
of operator invocations; the count is the initial count plus two per full
iteration plus one on a half exit; and the run ends because the residual
test passed, or with the count exactly at the budget, or immediately at
line 64 with the count still at its initial value. -/
theorem solve_ok_spec {α : Type} (ops : Ops α) (A : List α → List α)
    (M : Option (List α → List α)) (cfg : Cfg α) (rhs : List α) (guess : Option (List α))
    (res : Rslt α) (h : solve ops A M cfg rhs guess = .ok res) :
    res.threshold = ops.pmax cfg.abstol (ops.mul cfg.reltol res.residNorm0) ∧
    res.cnt.op = res.nMatvec ∧
    res.nMatvec = initCount guess + 2 * res.cnt.fullIters +
      (if res.cnt.halfExit then 1 else 0) ∧
    (ops.le res.residNorm res.threshold = true ∨ res.nMatvec = cfg.matvec_max ∨
      (cfg.matvec_max ≤ res.nMatvec ∧ res.nMatvec = initCount guess)) := by
  have key : ∀ (x r0 : List α) (nM : Nat) (c0 : Cnt),
      solveFrom ops A M cfg rhs x r0 nM c0 = .ok res →
      c0.op = nM → c0.halfExit = false → c0.fullIters = 0 → nM = initCount guess →
      res.threshold = ops.pmax cfg.abstol (ops.mul cfg.reltol res.residNorm0) ∧
      res.cnt.op = res.nMatvec ∧
      res.nMatvec = initCount guess + 2 * res.cnt.fullIters +
        (if res.cnt.halfExit then 1 else 0) ∧
      (ops.le res.residNorm res.threshold = true ∨ res.nMatvec = cfg.matvec_max ∨
        (cfg.matvec_max ≤ res.nMatvec ∧ res.nMatvec = initCount guess)) := by
    intro x r0 nM c0 h hop hhe hfi hinit
    simp only [solveFrom] at h
    split at h
    · rename_i hfin
      injection h with h
      subst h
      refine ⟨rfl, hop, by simp [hhe, hfi, hinit], ?_⟩
      rcases hfin with hfin | hfin
      · exact Or.inl hfin
      · exact Or.inr (Or.inr ⟨hfin, hinit⟩)
    · rename_i hfin
      rw [not_or] at hfin
      obtain ⟨hf1, hf2⟩ := hfin
      have hlt : nM < cfg.matvec_max := by omega
      have hr := loop_run ops A M cfg.matvec_max _ _ nM (cfg.matvec_max + 1) _ res h
        hlt hop hhe (by simp [hfi])
      obtain ⟨t1, t2, t3, t4, t5, _⟩ := hr
      refine ⟨by rw [t1, t2], t3, by rw [hinit] at t4 ; exact t4, ?_⟩
      rcases t5 with t5 | t5
      · exact Or.inl (by rw [t1] ; exact t5)
      · exact Or.inr (Or.inl t5)
  cases guess with
  | none =>
    simp only [solve] at h
    exact key _ _ _ _ h rfl rfl rfl rfl
  | some g =>
    simp only [solve] at h
    cases hs : vsubE ops rhs (A g) with
    | error e => simp [hs] at h
    | ok r0 => simp only [hs] at h ; exact key _ _ _ _ h rfl rfl rfl rfl

theorem phase1_shift_inr {α : Type} (ops : Ops α) (A : List α → List α)
    (M : Option (List α → List α)) (maxMV : Nat) (thr rn0 : α) (st : St α) (m : Mid α)
    (h : phase1 ops A M maxMV thr rn0 st = .ok (.inr m))
    (hb : st.nMatvec + 2 < maxMV) :
    phase1 ops A M maxMV thr rn0 (shiftSt st) = .ok (.inr (shiftMid m)) := by
  have hb1 : ¬ (maxMV ≤ st.nMatvec + 1 + 1) := by omega
  cases M <;>
    (simp only [phase1, shiftSt] at h ⊢
     repeat' (split at h <;> first
       | exact Except.noConfusion h
       | (injection h with hh ; exact Sum.noConfusion hh)
       | skip)
     injection h with h
     injection h with h
     subst h
     simp_all [shiftMid, shiftSt])

theorem phase1_shift_inl {α : Type} (ops : Ops α) (A : List α → List α)
    (M : Option (List α → List α)) (maxMV : Nat) (thr rn0 : α) (st : St α) (res : Rslt α)
    (h : phase1 ops A M maxMV thr rn0 st = .ok (.inl res))
    (hc : ops.le res.residNorm thr = true) :
    phase1 ops A M maxMV thr rn0 (shiftSt st) = .ok (.inl (shiftRes res)) := by
  cases M <;>
    (simp only [phase1, shiftSt] at h ⊢
     repeat' (split at h <;> first
       | exact Except.noConfusion h
       | (injection h with hh ; exact Sum.noConfusion hh)
       | skip)
     all_goals
       (injection h with h
        injection h with h
        subst h
        simp_all [shiftRes, shiftSt]))

theorem phase2_shift_inr {α : Type} (ops : Ops α) (A : List α → List α)
    (M : Option (List α → List α)) (maxMV : Nat) (thr rn0 : α) (m : Mid α) (st2 : St α)
    (h : phase2 ops A M maxMV thr rn0 m = .ok (.inr st2))
    (hb : m.st.nMatvec + 2 < maxMV) :
    phase2 ops A M maxMV thr rn0 (shiftMid m) = .ok (.inr (shiftSt st2)) := by
  have hb1 : ¬ (maxMV ≤ m.st.nMatvec + 1 + 1) := by omega
  cases M <;>
    (simp only [phase2, shiftMid, shiftSt] at h ⊢
     repeat' (split at h <;> first
       | exact Except.noConfusion h
       | (injection h with hh ; exact Sum.noConfusion hh)
       | skip)
     injection h with h
     injection h with h
     subst h
     simp_all)

theorem phase2_shift_inl {α : Type} (ops : Ops α) (A : List α → List α)
    (M : Option (List α → List α)) (maxMV : Nat) (thr rn0 : α) (m : Mid α) (res : Rslt α)
    (h : phase2 ops A M maxMV thr rn0 m = .ok (.inl res))
    (hc : ops.le res.residNorm thr = true) :
    phase2 ops A M maxMV thr rn0 (shiftMid m) = .ok (.inl (shiftRes res)) := by
  cases M <;>
    (simp only [phase2, shiftMid, shiftSt] at h ⊢
     repeat' (split at h <;> first
       | exact Except.noConfusion h
       | (injection h with hh ; exact Sum.noConfusion hh)
       | skip)
     all_goals
       (injection h with h
        injection h with h
        subst h
        simp_all [shiftRes, shiftSt]))

theorem iterStep_shift_inr {α : Type} (ops : Ops α) (A : List α → List α)
    (M : Option (List α → List α)) (maxMV : Nat) (thr rn0 : α) (st st2 : St α)
    (h : iterStep ops A M maxMV thr rn0 st = .ok (.inr st2))
    (hb : st.nMatvec + 3 < maxMV) :
    iterStep ops A M maxMV thr rn0 (shiftSt st) = .ok (.inr (shiftSt st2)) := by
  unfold iterStep at h ⊢
  cases hp : phase1 ops A M maxMV thr rn0 st with
  | error e => rw [hp] at h ; exact Except.noConfusion h
  | ok v1 =>
    rw [hp] at h
    cases v1 with
    | inl r1 =>
      injection h with h
      exact Sum.noConfusion h
    | inr m =>
      have e1 := (phase1_inr_spec ops A M maxMV thr rn0 st m hp).1
      rw [phase1_shift_inr ops A M maxMV thr rn0 st m hp (by omega)]
      exact phase2_shift_inr ops A M maxMV thr rn0 m st2 h (by omega)

theorem iterStep_shift_inl {α : Type} (ops : Ops α) (A : List α → List α)
    (M : Option (List α → List α)) (maxMV : Nat) (thr rn0 : α) (st : St α) (res : Rslt α)
    (h : iterStep ops A M maxMV thr rn0 st = .ok (.inl res))
    (hc : ops.le res.residNorm thr = true)
    (hb : res.nMatvec + 1 < maxMV) :
    iterStep ops A M maxMV thr rn0 (shiftSt st) = .ok (.inl (shiftRes res)) := by
  unfold iterStep at h ⊢
  cases hp : phase1 ops A M maxMV thr rn0 st with
  | error e => rw [hp] at h ; exact Except.noConfusion h
  | ok v1 =>
    rw [hp] at h
    cases v1 with
    | inl r1 =>
      injection h with h
      injection h with h
      subst h
      rw [phase1_shift_inl ops A M maxMV thr rn0 st _ hp hc]
    | inr m =>
      have e1 := (phase1_inr_spec ops A M maxMV thr rn0 st m hp).1
      have f1 := (phase2_inl_spec ops A M maxMV thr rn0 m res h).1
      rw [phase1_shift_inr ops A M maxMV thr rn0 st m hp (by omega)]
      exact phase2_shift_inl ops A M maxMV thr rn0 m res h hc

theorem loop_nM_mono {α : Type} (ops : Ops α) (A : List α → List α)
    (M : Option (List α → List α)) (maxMV : Nat) (thr rn0 : α) :
    ∀ fuel (st : St α) (res : Rslt α),
      loop ops A M maxMV thr rn0 fuel st = .ok res → st.nMatvec ≤ res.nMatvec := by
  intro fuel
  induction fuel with
  | zero => intro st res h ; exact absurd h (by simp [loop])
  | succ f ih =>
    intro st res h
    simp only [loop] at h
    cases hi : iterStep ops A M maxMV thr rn0 st with
    | error e => rw [hi] at h ; exact Except.noConfusion h
    | ok v1 =>
      rw [hi] at h
      cases v1 with
      | inl r1 =>
        injection h with h
        subst h
        obtain ⟨-, -, -, g4⟩ := iterStep_inl_spec ops A M maxMV thr rn0 st _ hi
        rcases g4 with ⟨k1, -⟩ | ⟨k1, -⟩ <;> omega
      | inr st2 =>
        have e1 := (iterStep_inr_spec ops A M maxMV thr rn0 st st2 hi).1
        have := ih st2 res h
        omega

/-- Simulation: a loop run that converges with a spare unit of budget is
reproduced step for step from the state with one extra matvec already
charged, finishing with the same vectors and residual and a count one
higher. -/
theorem loop_shift {α : Type} (ops : Ops α) (A : List α → List α)
    (M : Option (List α → List α)) (maxMV : Nat) (thr rn0 : α) :
    ∀ fuel (st : St α) (res : Rslt α),
      loop ops A M maxMV thr rn0 fuel st = .ok res →
      ops.le res.residNorm thr = true →
      res.nMatvec + 1 < maxMV →
      loop ops A M maxMV thr rn0 fuel (shiftSt st) = .ok (shiftRes res) := by
  intro fuel
  induction fuel with
  | zero => intro st res h ; exact absurd h (by simp [loop])
  | succ f ih =>
    intro st res h hc hb
    simp only [loop] at h ⊢
    cases hi : iterStep ops A M maxMV thr rn0 st with
    | error e => rw [hi] at h ; exact Except.noConfusion h
    | ok v1 =>
      rw [hi] at h
      cases v1 with
      | inl r1 =>
        injection h with h
        subst h
        rw [iterStep_shift_inl ops A M maxMV thr rn0 st _ hi hc hb]
      | inr st2 =>
        have e1 := (iterStep_inr_spec ops A M maxMV thr rn0 st st2 hi).1
        have hmono := loop_nM_mono ops A M maxMV thr rn0 f st2 res h
        rw [iterStep_shift_inr ops A M maxMV thr rn0 st st2 hi (by omega)]
        exact ih st2 res h hc hb

theorem foldl_add_replicate_zero (n : ℕ) :
    ∀ acc : ℚ, List.foldl ratOpsQ.add acc (List.replicate n 0) = acc := by
  induction n with
  | zero => intro acc ; rfl
  | succ k ih =>
    intro acc
    simp only [List.replicate, List.foldl]
    rw [ih]
    show acc + 0 = acc
    ring

theorem zipWith_mul_replicate_zero (n : ℕ) :
    List.zipWith ratOpsQ.mul (List.replicate n (0:ℚ)) (List.replicate n 0) =
      List.replicate n 0 := by
  induction n with
  | zero => rfl
  | succ k ih =>
    simp only [List.replicate, List.zipWith]
    rw [ih]
    show ((0:ℚ) * 0) :: _ = _
    norm_num

theorem dotT_replicate_zero (n : ℕ) :
    dotT ratOpsQ (List.replicate n (0:ℚ)) (List.replicate n 0) = 0 := by
  unfold dotT
  rw [zipWith_mul_replicate_zero]
  exact foldl_add_replicate_zero n ratOpsQ.zero

theorem zipWith_sub_self (l : List ℚ) :
    List.zipWith ratOpsQ.sub l l = List.replicate l.length 0 := by
  induction l with
  | nil => rfl
  | cons a t ih =>
    simp only [List.zipWith, List.length_cons, List.replicate]
    rw [ih]
    show (a - a) :: _ = _
    norm_num

theorem zipWith_sub_replicate_zero (l : List ℚ) :
    List.zipWith ratOpsQ.sub l (List.replicate l.length 0) = l := by
  induction l with
  | nil => rfl
  | cons a t ih =>
    simp only [List.zipWith, List.length_cons, List.replicate]
    rw [ih]
    show (a - 0) :: _ = _
    norm_num

theorem qSqrt_zero : qSqrt 0 = 0 := by
  norm_num [qSqrt]

theorem ratOpsQ_mul_zero (a : ℚ) : ratOpsQ.mul a 0 = 0 := by
  show a * 0 = 0
  ring

theorem ratOpsQ_sqrt_zero : ratOpsQ.sqrt 0 = 0 := qSqrt_zero

theorem le_zero_pmax_zero (a : ℚ) :
    ratOpsQ.le 0 (Ops.pmax ratOpsQ a 0) = true := by
  simp only [Ops.pmax, ratOpsQ, ratOps]
  split <;> simp_all

/-- C5: calling `solve` with the zero vector as `rhs` and no guess
terminates immediately with solution `x = 0`, `matvecCount = 0` and
`finalResidualNorm = 0`, performs no operator invocation, and does not
allocate the iteration vectors of lines 74-76. -/
theorem zero_rhs_immediate (n : ℕ) (A : List ℚ → List ℚ)
    (M : Option (List ℚ → List ℚ)) (cfg : Cfg ℚ) :
    ∃ res : Rslt ℚ, solve ratOpsQ A M cfg (List.replicate n 0) none = .ok res ∧
      res.x = List.replicate n 0 ∧ res.nMatvec = 0 ∧ res.residNorm = 0 ∧
      res.cnt.op = 0 ∧ res.cnt.allocated = false := by
  have hd : dotT ratOpsQ (List.replicate n (0:ℚ)) (List.replicate n 0) = 0 :=
    dotT_replicate_zero n
  have hsolve : solve ratOpsQ A M cfg (List.replicate n 0) none =
      .ok ⟨List.replicate n 0, 0, 0, 0, Ops.pmax ratOpsQ cfg.abstol 0,
        { Cnt.init with dot := 1 }⟩ := by
    simp only [solve, solveFrom, List.length_replicate]
    rw [hd, ratOpsQ_sqrt_zero, ratOpsQ_mul_zero]
    rw [if_pos (Or.inl (le_zero_pmax_zero cfg.abstol))]
    rfl
  exact ⟨_, hsolve, rfl, rfl, rfl, rfl, rfl⟩

/-- Instance of `zero_rhs_immediate` at a concrete dimension and
configuration. -/
theorem zero_rhs_immediate_witness :
    ∃ res : Rslt ℚ, solve ratOpsQ (fun v => v) none ⟨1/100, 1/1000000, 50⟩
        (List.replicate 3 0) none = .ok res ∧
      res.x = List.replicate 3 0 ∧ res.nMatvec = 0 ∧ res.residNorm = 0 ∧
      res.cnt.op = 0 ∧ res.cnt.allocated = false :=
  zero_rhs_immediate 3 (fun v => v) none ⟨1/100, 1/1000000, 50⟩

/-- C6: when the supplied guess solves the system exactly, the single
matvec of line 56 yields a zero residual and `solve` stops at line 64
with the guess unchanged and `matvecCount = 1`. -/
theorem guess_already_solution (A : List ℚ → List ℚ)
    (M : Option (List ℚ → List ℚ)) (cfg : Cfg ℚ) (rhs g : List ℚ)
    (hAg : A g = rhs) :
    ∃ res : Rslt ℚ, solve ratOpsQ A M cfg rhs (some g) = .ok res ∧
      res.x = g ∧ res.nMatvec = 1 ∧ res.residNorm = 0 ∧ res.cnt.op = 1 ∧
      res.cnt.allocated = false := by
  have hsub : vsubE ratOpsQ rhs (A g) = .ok (List.replicate rhs.length 0) := by
    rw [hAg]
    unfold vsubE
    rw [if_pos rfl, zipWith_sub_self]
  have hd := dotT_replicate_zero rhs.length
  have hsolve : solve ratOpsQ A M cfg rhs (some g) =
      .ok ⟨g, 1, 0, 0, Ops.pmax ratOpsQ cfg.abstol 0,
        { Cnt.init with op := 1, dot := 1 }⟩ := by
    simp only [solve]
    rw [hsub]
    simp only [solveFrom]
    rw [hd, ratOpsQ_sqrt_zero, ratOpsQ_mul_zero]
    rw [if_pos (Or.inl (le_zero_pmax_zero cfg.abstol))]
    rfl
  exact ⟨_, hsolve, rfl, rfl, rfl, rfl, rfl⟩

/-- Instance of `guess_already_solution`: identity operator, exact
guess. -/
theorem guess_already_solution_witness :
    ∃ res : Rslt ℚ, solve ratOpsQ (fun v => v) none ⟨0, 0, 10⟩ [5] (some [5]) = .ok res ∧
      res.x = [5] ∧ res.nMatvec = 1 ∧ res.residNorm = 0 ∧ res.cnt.op = 1 ∧
      res.cnt.allocated = false :=
  guess_already_solution (fun v => v) none ⟨0, 0, 10⟩ [5] [5] rfl

theorem initCount_le_one {α : Type} (guess : Option (List α)) : initCount guess ≤ 1 := by
  cases guess <;> simp [initCount]

theorem solve_residNorm0_noguess {α : Type} (ops : Ops α) (A : List α → List α)
    (M : Option (List α → List α)) (cfg : Cfg α) (rhs : List α) (res : Rslt α)
    (h : solve ops A M cfg rhs none = .ok res) :
    res.residNorm0 = ops.sqrt (dotT ops rhs rhs) := by
  simp only [solve, solveFrom] at h
  split at h
  · injection h with h
    subst h
    rfl
  · rename_i hfin
    rw [not_or] at hfin
    exact (loop_run ops A M cfg.matvec_max _ _ 0 (cfg.matvec_max + 1) _ res h
      (not_le.mp hfin.2) rfl rfl (by simp [Cnt.init])).2.1

unseal Rat.add Rat.sub Rat.mul Rat.inv in
/-- C1: in every iteration `alpha` is `rho / ⟨r0, v⟩` and `omega` is
`⟨t, s⟩ / ⟨t, t⟩`, divisions performed unconditionally with no breakdown
guard (first conjunct); and on a concrete run over the IEEE-style `FP`
scalars whose first denominator `⟨r0, v⟩` is exactly zero, the division
still happens (`alpha = inf`), the non-finite values propagate through
the vector updates and residual norms (`omega = nan`, final residual
`nan`), and control flow is unchanged: the loop runs two further full
iterations and stops only at the matvec budget (second and third
conjuncts). -/
theorem breakdown_divisions_unguarded :
    (∀ {α : Type} (ops : Ops α) (A : List α → List α) (M : Option (List α → List α))
        (maxMV : Nat) (thr rn0 : α) (st st2 : St α),
        iterStep ops A M maxMV thr rn0 st = .ok (.inr st2) →
        st2.alpha = ops.div st2.rho (dotT ops st2.r0 st2.v) ∧
        st2.omega = ops.div (dotT ops st2.tv st2.sv) (dotT ops st2.tv st2.tv)) ∧
    (iterStep fpOps (matVecOf fpOps [[FP.fin 0]]) none 4 (FP.fin 0) (FP.fin 1)
        ⟨[FP.fin 0], [FP.fin 1], [FP.fin 1], [FP.fin 0], [FP.fin 0], [], [],
          FP.fin 1, FP.fin 1, FP.fin 1, FP.fin 1, 0, ⟨0, 1, 0, 0, 0, false, true⟩⟩ =
      .ok (.inr ⟨[FP.nan], [FP.fin 1], [FP.nan], [FP.fin 1], [FP.fin 0], [FP.nan],
        [FP.nan], FP.fin 1, FP.inf, FP.nan, FP.nan, 2,
        ⟨2, 7, 6, 0, 1, false, true⟩⟩) ∧
      dotT fpOps [FP.fin 1] [FP.fin 0] = FP.fin 0) ∧
    (solve fpOps (matVecOf fpOps [[FP.fin 0]]) none ⟨FP.fin 0, FP.fin 0, 4⟩
        [FP.fin 1] none =
      .ok ⟨[FP.nan], 4, FP.nan, FP.fin 1, FP.fin 0, ⟨4, 13, 12, 0, 2, false, true⟩⟩) := by
  refine ⟨?_, ⟨by decide, by decide⟩, by decide⟩
  intro α ops A M maxMV thr rn0 st st2 h
  have hs := iterStep_inr_spec ops A M maxMV thr rn0 st st2 h
  exact ⟨hs.2.2.2.2.2.2.2.2.2.2.1, hs.2.2.2.2.2.2.2.2.2.2.2⟩

unseal Rat.add Rat.sub Rat.mul Rat.inv in
/-- Instance of the first conjunct of `breakdown_divisions_unguarded` at
the concrete `FP` state whose denominator vanishes: `alpha` is indeed the
result of the division `rho / ⟨r0, v⟩ = 1 / 0 = inf`. -/
theorem breakdown_divisions_unguarded_witness :
    FP.inf = fpOps.div (FP.fin 1) (dotT fpOps [FP.fin 1] [FP.fin 0]) ∧
    FP.nan = fpOps.div (dotT fpOps [FP.nan] [FP.nan]) (dotT fpOps [FP.nan] [FP.nan]) :=
  breakdown_divisions_unguarded.1 fpOps (matVecOf fpOps [[FP.fin 0]]) none 4
    (FP.fin 0) (FP.fin 1)
    ⟨[FP.fin 0], [FP.fin 1], [FP.fin 1], [FP.fin 0], [FP.fin 0], [], [],
      FP.fin 1, FP.fin 1, FP.fin 1, FP.fin 1, 0, ⟨0, 1, 0, 0, 0, false, true⟩⟩
    ⟨[FP.nan], [FP.fin 1], [FP.nan], [FP.fin 1], [FP.fin 0], [FP.nan], [FP.nan],
      FP.fin 1, FP.inf, FP.nan, FP.nan, 2, ⟨2, 7, 6, 0, 1, false, true⟩⟩
    (by decide)

/-- C2 (amended): `solve` always terminates within the fuel derived from
the budget (first conjunct); a run that ends above the threshold ends
with `matvecCount` in `{maxMatvec - 1, maxMatvec, maxMatvec + 1}` (second
conjunct); and termination occurs with `matvecCount ≤ maxMatvec`, or with
the residual at or below the threshold, or — the degenerate case the
original claim misses — with a supplied guess and `maxMatvec = 0`, where
the single initial-residual matvec leaves `matvecCount = 1 = maxMatvec +
1` (third conjunct). -/
theorem budget_termination :
    (∀ {α : Type} (ops : Ops α) (A : List α → List α) (M : Option (List α → List α))
        (cfg : Cfg α) (rhs : List α) (guess : Option (List α)),
        solve ops A M cfg rhs guess ≠ .error .fuelOut) ∧
    (∀ {α : Type} (ops : Ops α) (A : List α → List α) (M : Option (List α → List α))
        (cfg : Cfg α) (rhs : List α) (guess : Option (List α)) (res : Rslt α),
        solve ops A M cfg rhs guess = .ok res →
        ¬ (ops.le res.residNorm res.threshold = true) →
        (res.nMatvec = cfg.matvec_max - 1 ∨ res.nMatvec = cfg.matvec_max ∨
          res.nMatvec = cfg.matvec_max + 1)) ∧
    (∀ {α : Type} (ops : Ops α) (A : List α → List α) (M : Option (List α → List α))
        (cfg : Cfg α) (rhs : List α) (guess : Option (List α)) (res : Rslt α),
        solve ops A M cfg rhs guess = .ok res →
        (res.nMatvec ≤ cfg.matvec_max ∨ ops.le res.residNorm res.threshold = true ∨
          (guess.isSome = true ∧ cfg.matvec_max = 0 ∧ res.nMatvec = 1))) := by
  refine ⟨?_, ?_, ?_⟩
  · intro α ops A M cfg rhs guess
    exact solve_no_fuelOut ops A M cfg rhs guess
  · intro α ops A M cfg rhs guess res h hno
    have hs := (solve_ok_spec ops A M cfg rhs guess res h).2.2.2
    have hle := initCount_le_one guess
    rcases hs with hs | hs | ⟨hs1, hs2⟩
    · exact absurd hs hno
    · exact Or.inr (Or.inl hs)
    · omega
  · intro α ops A M cfg rhs guess res h
    have hs := (solve_ok_spec ops A M cfg rhs guess res h).2.2.2
    rcases hs with hs | hs | ⟨hs1, hs2⟩
    · exact Or.inr (Or.inl hs)
    · exact Or.inl (by omega)
    · cases guess with
      | none => exact Or.inl (by simp [initCount] at hs2 ; omega)
      | some g =>
        simp only [initCount] at hs2
        rcases Nat.eq_zero_or_pos cfg.matvec_max with h0 | h0
        · exact Or.inr (Or.inr ⟨rfl, h0, hs2⟩)
        · exact Or.inl (by omega)

unseal Rat.add Rat.sub Rat.mul Rat.inv in
/-- The non-converging budget-bound run used to instantiate
`budget_termination`: two matvecs against a budget of two, residual `1/3`
above the zero threshold. -/
theorem budget_termination_witness :
    solve ratOpsQ (matVecOf ratOpsQ [[(1:ℚ), 1], [0, 1]]) none ⟨0, 0, 2⟩ [1, 1] none ≠
      .error .fuelOut ∧
    ((2 : ℕ) = 2 - 1 ∨ (2 : ℕ) = 2 ∨ (2 : ℕ) = 2 + 1) ∧
    ((2 : ℕ) ≤ 2 ∨ ratOpsQ.le (1/3) 0 = true ∨
      ((Option.none : Option (List ℚ)).isSome = true ∧ (2 : ℕ) = 0 ∧ (2 : ℕ) = 1)) := by
  refine ⟨budget_termination.1 ratOpsQ _ none ⟨0, 0, 2⟩ [1, 1] none, ?_, ?_⟩
  · exact budget_termination.2.1 ratOpsQ (matVecOf ratOpsQ [[(1:ℚ), 1], [0, 1]]) none
      ⟨0, 0, 2⟩ [1, 1] none
      ⟨[1/3, 1], 2, 1/3, 2, 0, ⟨2, 7, 6, 0, 1, false, true⟩⟩ (by decide) (by decide)
  · exact budget_termination.2.2 ratOpsQ (matVecOf ratOpsQ [[(1:ℚ), 1], [0, 1]]) none
      ⟨0, 0, 2⟩ [1, 1] none
      ⟨[1/3, 1], 2, 1/3, 2, 0, ⟨2, 7, 6, 0, 1, false, true⟩⟩ (by decide)

unseal Rat.add Rat.sub Rat.mul Rat.inv in
/-- Counterexample to C2 as stated: with a supplied guess and
`maxMatvec = 0` the initial-residual matvec of line 56 runs before the
line-64 check, so the call returns with `matvecCount = 1 > maxMatvec`
while the residual (2) is above the threshold (0) — neither disjunct of
the claimed invariant holds. -/
theorem budget_invariant_counterexample :
    solve ratOpsQ (fun v => v) none ⟨0, 0, 0⟩ [1] (some [3]) =
      .ok ⟨[3], 1, 2, 2, 0, ⟨1, 1, 0, 0, 0, false, false⟩⟩ ∧
    ¬ ((1 : ℕ) ≤ 0) ∧ ¬ (ratOpsQ.le 2 0 = true) :=
  ⟨by decide, by decide, by decide⟩

/-- C3: the matvec counter equals the number of operator invocations, and
a run with `k` full iterations ends with `matvecCount = 2k` (full-step
exit) or `2k + 1` (half-step exit), plus one more when a guess was
supplied. -/
theorem matvec_counting_invariant {α : Type} (ops : Ops α) (A : List α → List α)
    (M : Option (List α → List α)) (cfg : Cfg α) (rhs : List α)
    (guess : Option (List α)) (res : Rslt α)
    (h : solve ops A M cfg rhs guess = .ok res) :
    res.cnt.op = res.nMatvec ∧
    res.nMatvec = initCount guess + 2 * res.cnt.fullIters +
      (if res.cnt.halfExit then 1 else 0) := by
  have hs := solve_ok_spec ops A M cfg rhs guess res h
  exact ⟨hs.2.1, hs.2.2.1⟩

unseal Rat.add Rat.sub Rat.mul Rat.inv in
/-- Instance of `matvec_counting_invariant`: a run with a supplied guess,
one full iteration and a half-step exit gives `matvecCount = 1 + 2 + 1 =
4`, equal to the operator-invocation count. -/
theorem matvec_counting_invariant_witness :
    (4 : ℕ) = 4 ∧
    (4 : ℕ) = initCount (some [(0:ℚ), 0]) + 2 * 1 + (if true then 1 else 0) :=
  matvec_counting_invariant ratOpsQ (matVecOf ratOpsQ [[(1:ℚ), 1], [0, 1]]) none
    ⟨0, 0, 100⟩ [1, 1] (some [0, 0])
    ⟨[0, 1], 4, 0, 2, 0, ⟨4, 9, 10, 0, 1, true, true⟩⟩ (by decide)

unseal Rat.add Rat.sub Rat.mul Rat.inv in
/-- C4: every run publishes `threshold = max(abstol, reltol *
residNorm0)` where `residNorm0` is the initial residual norm computed
once before the loop (first two conjuncts), and at `abstol = 1e-10`,
`reltol = 1e-6`, `initialResidualNorm = 100` the threshold is exactly
`1e-4` (third conjunct). -/
theorem threshold_formula :
    (∀ {α : Type} (ops : Ops α) (A : List α → List α) (M : Option (List α → List α))
        (cfg : Cfg α) (rhs : List α) (guess : Option (List α)) (res : Rslt α),
        solve ops A M cfg rhs guess = .ok res →
        res.threshold = ops.pmax cfg.abstol (ops.mul cfg.reltol res.residNorm0)) ∧
    (∀ {α : Type} (ops : Ops α) (A : List α → List α) (M : Option (List α → List α))
        (cfg : Cfg α) (rhs : List α) (res : Rslt α),
        solve ops A M cfg rhs none = .ok res →
        res.residNorm0 = ops.sqrt (dotT ops rhs rhs)) ∧
    (solve ratOpsQ (fun v => v) none ⟨1/10000000000, 1/1000000, 100⟩ [100] none =
      .ok ⟨[100], 1, 0, 100, 1/10000, ⟨1, 3, 4, 0, 0, true, true⟩⟩) := by
  refine ⟨?_, ?_, by decide⟩
  · intro α ops A M cfg rhs guess res h
    exact (solve_ok_spec ops A M cfg rhs guess res h).1
  · intro α ops A M cfg rhs res h
    exact solve_residNorm0_noguess ops A M cfg rhs res h

unseal Rat.add Rat.sub Rat.mul Rat.inv in
/-- Instance of `threshold_formula`: the `1e-4` threshold of the
concrete run satisfies the published formula. -/
theorem threshold_formula_witness :
    (1/10000 : ℚ) = ratOpsQ.pmax (1/10000000000) (ratOpsQ.mul (1/1000000) 100) ∧
    (100 : ℚ) = ratOpsQ.sqrt (dotT ratOpsQ [100] [100]) :=
  ⟨threshold_formula.1 ratOpsQ (fun v => v) none ⟨1/10000000000, 1/1000000, 100⟩
      [100] none ⟨[100], 1, 0, 100, 1/10000, ⟨1, 3, 4, 0, 0, true, true⟩⟩ (by decide),
    threshold_formula.2.1 ratOpsQ (fun v => v) none ⟨1/10000000000, 1/1000000, 100⟩
      [100] ⟨[100], 1, 0, 100, 1/10000, ⟨1, 3, 4, 0, 0, true, true⟩⟩ (by decide)⟩

/-- C7: every full (non-terminating) pass through the loop body performs
exactly 2 operator invocations, 6 `np.dot` evaluations, 6 scaled-vector
updates, and 2 preconditioner applications (0 when no preconditioner is
configured), whatever the input values. -/
theorem per_iteration_cost {α : Type} (ops : Ops α) (A : List α → List α)
    (M : Option (List α → List α)) (maxMV : Nat) (thr rn0 : α) (st st2 : St α)
    (h : iterStep ops A M maxMV thr rn0 st = .ok (.inr st2)) :
    st2.cnt.op = st.cnt.op + 2 ∧ st2.cnt.dot = st.cnt.dot + 6 ∧
    st2.cnt.axpy = st.cnt.axpy + 6 ∧
    st2.cnt.precon = st.cnt.precon + (if M.isSome then 2 else 0) := by
  have hs := iterStep_inr_spec ops A M maxMV thr rn0 st st2 h
  refine ⟨hs.2.2.1, hs.2.2.2.1, hs.2.2.2.2.1, ?_⟩
  have hp := hs.2.2.2.2.2.1
  cases M <;> simp_all

unseal Rat.add Rat.sub Rat.mul Rat.inv in
/-- Instance of `per_iteration_cost` on a concrete full iteration
(unpreconditioned): counters advance by exactly (2, 6, 6, 0). -/
theorem per_iteration_cost_witness :
    (2 : ℕ) = 0 + 2 ∧ (7 : ℕ) = 1 + 6 ∧ (6 : ℕ) = 0 + 6 ∧
    (0 : ℕ) = 0 + (if (Option.none : Option (List ℚ → List ℚ)).isSome then 2 else 0) :=
  per_iteration_cost ratOpsQ (matVecOf ratOpsQ [[(1:ℚ), 1], [0, 1]]) none 100 0 2
    ⟨[0, 0], [1, 1], [1, 1], [0, 0], [0, 0], [], [], 1, 1, 1, 2, 0,
      ⟨0, 1, 0, 0, 0, false, true⟩⟩
    ⟨[1/3, 1], [1, 1], [-1/3, 0], [1, 1], [2, 1], [-1/3, 1/3], [0, 1/3],
      2, 2/3, 1, -1/3, 2, ⟨2, 7, 6, 0, 1, false, true⟩⟩ (by decide)

unseal Rat.add Rat.sub Rat.mul Rat.inv in
/-- C8 (amended): no dimension check runs at entry.  When the dimension
mismatch between `rhs` and `A·guess` is not numpy's length-1 broadcast
case, the call fails while forming the initial residual `rhs - A·guess`
at line 56 — after exactly one operator invocation and before
`nMatvec += 1`, any solution update, or any result publication (first
conjunct).  In the broadcastable case numpy does not raise at line 56:
with a length-1 guess, the identity operator, and the budget already
exhausted after the initial-residual matvec, the mismatched call even
completes normally and publishes a result (second conjunct). -/
theorem dimension_mismatch_amended :
    (∀ {α : Type} (ops : Ops α) (A : List α → List α) (M : Option (List α → List α))
        (cfg : Cfg α) (rhs g : List α),
        (A g).length ≠ rhs.length → (A g).length ≠ 1 → rhs.length ≠ 1 →
        solve ops A M cfg rhs (some g) = .error (.shape 0 1)) ∧
    (solve ratOpsQ (fun v => v) none ⟨0, 0, 1⟩ [(1:ℚ), 2] (some [0]) =
      .ok ⟨[0], 1, 5, 5, 0, ⟨1, 1, 0, 0, 0, false, false⟩⟩) := by
  refine ⟨?_, by decide⟩
  intro α ops A M cfg rhs g hlen hb1 hb2
  have hs : vsubE ops rhs (A g) = .error () := by
    unfold vsubE
    rw [if_neg (fun hh => hlen hh.symm)]
    split <;> simp_all
  simp only [solve, hs]

/-- Instance of the first conjunct of `dimension_mismatch_amended` at a
concrete non-broadcastable mismatch (lengths 3 against 2). -/
theorem dimension_mismatch_amended_witness :
    solve ratOpsQ (fun v => v) none ⟨0, 0, 5⟩ [(1:ℚ), 2] (some [0, 0, 0]) =
      .error (.shape 0 1) :=
  dimension_mismatch_amended.1 ratOpsQ (fun v => v) none ⟨0, 0, 5⟩ [1, 2] [0, 0, 0]
    (by decide) (by decide) (by decide)

/-- Counterexample to C8 as stated: with `rhs` of length 3 and a guess of
length 2 the call does fail with no result published, but only after the
operator has already been invoked once (the error payload records one
operator invocation, not zero), so the failure is not "before any
operator invocation". -/
theorem dimension_mismatch_counterexample :
    solve ratOpsQ (fun v => v) none ⟨0, 0, 10⟩ [(1:ℚ), 2, 3] (some [0, 0]) =
      .error (.shape 0 1) ∧ (1 : ℕ) ≠ 0 :=
  ⟨by decide, by decide⟩

theorem solveFrom_shift {α : Type} (ops : Ops α) (A : List α → List α)
    (M : Option (List α → List α)) (cfg : Cfg α) (rhs x r0 : List α) (res : Rslt α)
    (h : solveFrom ops A M cfg rhs x r0 0 Cnt.init = .ok res)
    (hconv : ops.le res.residNorm res.threshold = true)
    (hbud : res.nMatvec + 1 < cfg.matvec_max) :
    solveFrom ops A M cfg rhs x r0 1 { Cnt.init with op := 1 } = .ok (shiftRes res) := by
  simp only [solveFrom] at h ⊢
  split at h
  · rename_i hfin
    injection h with h
    subst h
    rw [if_pos (Or.inl hconv)]
    rfl
  · rename_i hfin
    rw [not_or] at hfin
    obtain ⟨hf1, hf2⟩ := hfin
    have hrun := loop_run ops A M cfg.matvec_max _ _ 0 (cfg.matvec_max + 1) _ res h
      (not_le.mp hf2) rfl rfl (by simp [Cnt.init])
    split
    · rename_i hgoal
      rcases hgoal with hgoal | hgoal
      · exact absurd hgoal hf1
      · exact absurd hgoal (by omega)
    · have hc2 : ops.le res.residNorm
          (ops.pmax cfg.abstol (ops.mul cfg.reltol (ops.sqrt (dotT ops r0 r0)))) = true := by
        rw [hrun.1] at hconv
        exact hconv
      exact loop_shift ops A M cfg.matvec_max _ _ (cfg.matvec_max + 1) _ res h hc2 hbud

/-- C10 (amended): supplying `guess = 0` is decided by keyword presence
and charges the extra matvec of line 56 forming `r0 = rhs - A·0`; when
the operator maps zero to zero and the no-guess run converges with a
spare unit of budget, the guess-zero run reproduces it exactly — same
solution and residual — with `matvecCount` exactly one larger (under a
binding budget the two counts can instead coincide; see the
counterexample). -/
theorem guess_zero_extra_matvec (A : List ℚ → List ℚ) (M : Option (List ℚ → List ℚ))
    (cfg : Cfg ℚ) (rhs : List ℚ) (res : Rslt ℚ)
    (hA0 : A (List.replicate rhs.length 0) = List.replicate rhs.length 0)
    (h1 : solve ratOpsQ A M cfg rhs none = .ok res)
    (hconv : ratOpsQ.le res.residNorm res.threshold = true)
    (hbud : res.nMatvec + 1 < cfg.matvec_max) :
    solve ratOpsQ A M cfg rhs (some (List.replicate rhs.length 0)) =
      .ok (shiftRes res) := by
  have hz : vsubE ratOpsQ rhs (A (List.replicate rhs.length 0)) = .ok rhs := by
    rw [hA0]
    unfold vsubE
    rw [if_pos (by simp), zipWith_sub_replicate_zero]
  simp only [solve] at h1 ⊢
  simp only [hz]
  exact solveFrom_shift ratOpsQ A M cfg rhs _ rhs res h1 hconv hbud

unseal Rat.add Rat.sub Rat.mul Rat.inv in
/-- Instance of `guess_zero_extra_matvec`: the converging run ends with
3 matvecs without a guess and 4 with `guess = 0`. -/
theorem guess_zero_extra_matvec_witness :
    solve ratOpsQ (matVecOf ratOpsQ [[(1:ℚ), 1], [0, 1]]) none ⟨0, 0, 100⟩ [1, 1]
        (some [0, 0]) =
      .ok (shiftRes ⟨[0, 1], 3, 0, 2, 0, ⟨3, 9, 10, 0, 1, true, true⟩⟩) :=
  guess_zero_extra_matvec (matVecOf ratOpsQ [[(1:ℚ), 1], [0, 1]]) none ⟨0, 0, 100⟩
    [1, 1] ⟨[0, 1], 3, 0, 2, 0, ⟨3, 9, 10, 0, 1, true, true⟩⟩
    (by decide) (by decide) (by decide) (by decide)

unseal Rat.add Rat.sub Rat.mul Rat.inv in
/-- Counterexample to C10 as stated: under a binding budget
(`maxMatvec = 2`) the no-guess run and the guess-zero run of the same
system both finish with `matvecCount = 2` — the final counts do not
differ by one, even though the operator maps zero to zero. -/
theorem guess_zero_counterexample :
    matVecOf ratOpsQ [[(1:ℚ), 1], [0, 1]] [0, 0] = [0, 0] ∧
    solve ratOpsQ (matVecOf ratOpsQ [[(1:ℚ), 1], [0, 1]]) none ⟨0, 0, 2⟩ [1, 1] none =
      .ok ⟨[1/3, 1], 2, 1/3, 2, 0, ⟨2, 7, 6, 0, 1, false, true⟩⟩ ∧
    solve ratOpsQ (matVecOf ratOpsQ [[(1:ℚ), 1], [0, 1]]) none ⟨0, 0, 2⟩ [1, 1]
        (some [0, 0]) =
      .ok ⟨[0, 0], 2, 2/9, 2, 0, ⟨2, 3, 3, 0, 0, true, true⟩⟩ ∧
    ¬ ((2 : ℕ) = 2 + 1 ∨ (2 : ℕ) + 1 = 2) :=
  ⟨by decide, by decide, by decide, by decide⟩

theorem iterStepR_inl_spec {α : Type} (ops : Ops α) (A : List α → List α)
    (M : Option (List α → List α)) (maxMV : Nat) (thr : α) (st : StR α) (res : RsltR α)
    (h : iterStepR ops A M maxMV thr st = .ok (.inl res)) :
    res.bestAddr = st.xa ∧ res.store.length = st.store.length ∧
    (∀ a ∈ res.writes, a ∈ st.writes ∨ a = st.xa) := by
  cases M <;>
    (simp only [iterStepR] at h
     repeat' (split at h <;> first
       | exact Except.noConfusion h
       | (injection h with hh ; exact Sum.noConfusion hh)
       | skip)
     all_goals
       (injection h with h
        injection h with h
        subst h
        simp_all))

theorem iterStepR_inr_spec {α : Type} (ops : Ops α) (A : List α → List α)
    (M : Option (List α → List α)) (maxMV : Nat) (thr : α) (st st2 : StR α)
    (h : iterStepR ops A M maxMV thr st = .ok (.inr st2)) :
    st2.xa = st.xa ∧ st2.store.length = st.store.length ∧
    (∀ a ∈ st2.writes, a ∈ st.writes ∨ a = st.xa) := by
  cases M <;>
    (simp only [iterStepR] at h
     repeat' (split at h <;> first
       | exact Except.noConfusion h
       | (injection h with hh ; exact Sum.noConfusion hh)
       | skip)
     all_goals
       (injection h with h
        injection h with h
        subst h
        simp_all))

theorem loopR_spec {α : Type} (ops : Ops α) (A : List α → List α)
    (M : Option (List α → List α)) (maxMV : Nat) (thr : α) :
    ∀ fuel (st : StR α) (res : RsltR α),
      loopR ops A M maxMV thr fuel st = .ok res →
      res.bestAddr = st.xa ∧ res.store.length = st.store.length ∧
      (∀ a ∈ res.writes, a ∈ st.writes ∨ a = st.xa) := by
  intro fuel
  induction fuel with
  | zero => intro st res h ; exact absurd h (by simp [loopR])
  | succ f ih =>
    intro st res h
    simp only [loopR] at h
    cases hi : iterStepR ops A M maxMV thr st with
    | error e => rw [hi] at h ; exact Except.noConfusion h
    | ok v1 =>
      rw [hi] at h
      cases v1 with
      | inl r1 =>
        injection h with h
        subst h
        exact iterStepR_inl_spec ops A M maxMV thr st _ hi
      | inr st2 =>
        obtain ⟨e1, e2, e3⟩ := iterStepR_inr_spec ops A M maxMV thr st st2 hi
        obtain ⟨f1, f2, f3⟩ := ih st2 res h
        refine ⟨by rw [f1, e1], by rw [f2, e2], ?_⟩
        intro a ha
        rcases f3 a ha with ha2 | ha2
        · rcases e3 a ha2 with ha3 | ha3
          · exact Or.inl ha3
          · exact Or.inr ha3
        · exact Or.inr (by rw [ha2, e1])

/-- C9: with a supplied guess, `solve` adopts the caller's array as its
working solution without copying: the store never grows beyond the
caller's single cell (no fresh solution vector is created), every
in-place solution update of lines 106, 130 and 131 writes through the
caller's address, and the published `bestSolution` of line 144 is that
same address — it aliases the supplied guess object. -/
theorem guess_buffer_aliasing {α : Type} (ops : Ops α) (A : List α → List α)
    (M : Option (List α → List α)) (cfg : Cfg α) (rhs g : List α) (res : RsltR α)
    (h : solveR ops A M cfg rhs (some g) = .ok res) :
    res.bestAddr = 0 ∧ res.store.length = 1 ∧ (∀ a ∈ res.writes, a = 0) := by
  simp only [solveR] at h
  cases hs : vsubE ops rhs (A g) with
  | error e => simp [hs] at h
  | ok r0 =>
    simp only [hs] at h
    simp only [solveFromR] at h
    split at h
    · injection h with h
      subst h
      exact ⟨rfl, rfl, by simp⟩
    · obtain ⟨f1, f2, f3⟩ := loopR_spec ops A M cfg.matvec_max _ (cfg.matvec_max + 1) _ res h
      refine ⟨f1, f2, ?_⟩
      intro a ha
      rcases f3 a ha with ha2 | ha2
      · exact absurd ha2 (by simp)
      · exact ha2

unseal Rat.add Rat.sub Rat.mul Rat.inv in
/-- Instance of `guess_buffer_aliasing` on a concrete run: three
in-place writes, all through the caller's cell, which ends up holding
the solution `[0, 1]` — the same solution the value-level `solve`
computes on this input. -/
theorem guess_buffer_aliasing_witness :
    (0 : ℕ) = 0 ∧ ([[(0:ℚ), 1]] : List (List ℚ)).length = 1 ∧
    (∀ a ∈ ([0, 0, 0] : List ℕ), a = 0) :=
  guess_buffer_aliasing ratOpsQ (matVecOf ratOpsQ [[(1:ℚ), 1], [0, 1]]) none
    ⟨0, 0, 100⟩ [1, 1] [0, 0]
    ⟨0, [[0, 1]], [0, 0, 0], 4, 0⟩ (by decide)

end BiCGSTAB
